import Mathlib

/-!
Shallow embedding of `vm.c` ("Designing a Virtual Memory Manager", Chapter 10).

The C program translates 16-bit logical addresses to physical addresses using a
256-entry page table, a 16-entry TLB with a circular insertion cursor, a pool of
128 frames of 256 bytes each, and a backing store read per page fault.  The
embedding below mirrors the source function by function:

  * C global arrays become fields of `VMState` (`page_table`, `TLB`, `frames`)
    together with the global counters;
  * the frame linked list becomes a `List Frame`, scanned exactly as the C
    loops scan it (first match on `frame_number`);
  * the backing store file becomes `Option BackingStore` (`none` models a
    failing `fopen`); a frame's byte buffer is a function `Nat → Nat`;
  * C `int` becomes `Int`; `(v >> 8) & 0xFF` is `Int.land (v >>> 8) 255`,
    matching the arithmetic shift and two's-complement mask of the compiled
    program; `atoi` is modelled by `c_atoi`;
  * `fprintf` of one output line becomes one `Record`; the record additionally
    carries, as pure instrumentation, the victim frame chosen if the address
    page-faulted (`fault_victim`).
-/

namespace VM

def PAGE_SIZE : Nat := 256

def PHYSICAL_MEMORY_FRAMES : Nat := 128

def NUMBER_OF_PAGES : Nat := 256

def TLB_SIZE : Nat := 16

def INT_MAX : Int := 2147483647

/-- The command-line policy string "fifo". -/
def algFifo : String := "fifo"

/-- The command-line policy string "lru". -/
def algLru : String := "lru"

/-- One parsed input address: `struct Address` without the list pointer. -/
structure Address where
  virtual_address : Int
  page_number : Int
  offset : Int
deriving Repr, DecidableEq

/-- One physical frame: `struct Frame` without the list pointer.  The 256-byte
`char data[PAGE_SIZE]` buffer is modelled as a total function on byte indices
(raw byte values `0..255`; the signed reinterpretation happens at read time,
as in the C cast `(signed char)`). -/
structure Frame where
  data : Nat → Nat
  frame_number : Int
  last_used : Int

/-- The backing store file: its byte length and its content.  `fread` of a page
returns only the bytes that lie inside the file. -/
structure BackingStore where
  size : Nat
  byteAt : Nat → Nat

/-- The global mutable state of `vm.c`: `page_table[256]`, `TLB[16]`, the frame
list, and the five counters/cursors. -/
structure VMState where
  page_table : List Int
  TLB : List (Int × Int)
  frames : List Frame
  page_fault_counter : Nat
  next_victim_frame : Nat
  total_translated_addresses : Nat
  tlb_hit_counter : Nat
  next_tlb_entry : Nat
  current_time : Int

/-- `init_page_table`: all 256 entries set to `-1` (unmapped). -/
def init_page_table : List Int := List.replicate NUMBER_OF_PAGES (-1)

/-- `init_tlb`: all 16 slots set to `(-1, -1)` (empty). -/
def init_tlb : List (Int × Int) := List.replicate TLB_SIZE (-1, -1)

/-- `init_physical_memory`: frames `0..127`, zero-filled data, `last_used = 0`,
appended in increasing frame-number order (as `create_frame` builds the list). -/
def init_physical_memory : List Frame :=
  (List.range PHYSICAL_MEMORY_FRAMES).map (fun i => ⟨fun _ => 0, (i : Int), 0⟩)

/-- The state right after `main`'s initialization calls, before any address is
translated. -/
def initState : VMState :=
  ⟨init_page_table, init_tlb, init_physical_memory, 0, 0, 0, 0, 0, 0⟩

/-- `page_table[page]` read.  Pages produced by the splitter are always in
`0..255`, so the default of the out-of-range read is never exercised. -/
def ptGet (pt : List Int) (page : Int) : Int := pt.getD page.toNat (-1)

/-- `select_victim_frame_fifo`: reset the cursor when it has reached 128,
return its value, then post-increment.  Returns `(victim, new cursor)`. -/
def select_victim_frame_fifo (next_victim_frame : Nat) : Nat × Nat :=
  let v := if PHYSICAL_MEMORY_FRAMES ≤ next_victim_frame then 0 else next_victim_frame
  (v, v + 1)

/-- The scan loop of `select_victim_frame_lru`: walk the frame list keeping the
frame with the strictly smallest `last_used` seen so far (`lru_frame`,
`min_last_used`). -/
def lru_scan : List Frame → Frame → Int → Frame
  | [], lru_frame, _ => lru_frame
  | f :: rest, lru_frame, min_last_used =>
    if f.last_used < min_last_used then lru_scan rest f f.last_used
    else lru_scan rest lru_frame min_last_used

/-- `select_victim_frame_lru`: scan all frames starting from
`lru_frame = head`, `min_last_used = INT_MAX`.  On an empty list the C code
dereferences a null pointer; the pool is never empty in any run, and the
embedding returns `-1` there. -/
def select_victim_frame_lru (head : List Frame) : Int :=
  match head with
  | [] => -1
  | f :: rest => (lru_scan (f :: rest) f INT_MAX).frame_number

/-- First frame in the list with the given frame number (the C loops
`while (current->frame_number != n) current = current->next`). -/
def find_frame : List Frame → Int → Option Frame
  | [], _ => none
  | f :: rest, n => if f.frame_number = n then some f else find_frame rest n

/-- Apply `g` to the first frame with the given number, as the C loops do
(modify, then `break`). -/
def set_frame : List Frame → Int → (Frame → Frame) → List Frame
  | [], _, _ => []
  | f :: rest, n, g => if f.frame_number = n then g f :: rest else f :: set_frame rest n g

/-- The effect of `fread(data, 1, 256, bs)` after `fseek` to `off`: byte `i` of
the buffer receives file byte `off + i` when that offset is inside the file;
bytes past end-of-file keep the buffer's previous content (`fread` stops at
EOF and the C code ignores its return value). -/
def fread_page (bs : BackingStore) (off : Nat) (old : Nat → Nat) : Nat → Nat :=
  fun i => if i < PAGE_SIZE ∧ off + i < bs.size then bs.byteAt (off + i) else old i

/-- The scan in `load_page_into_frame` that finds the page currently mapped to
the victim frame: the first index `i` with `page_table[i] == victim` (the C
loop runs `i` over `0..255`, which is exactly the index range of the 256-entry
table). -/
def find_previous_page (pt : List Int) (victim : Int) : Option Nat :=
  pt.findIdx? (fun e => e == victim)

/-- `load_page_into_frame`.  When the backing store cannot be opened the C
function prints an error and returns with the state unchanged.  Otherwise it
copies the page's bytes into the victim frame, stamps it with the current
time (post-incrementing the clock), clears the page-table entry of the page
previously owning the victim frame, and maps `page_number` to the victim. -/
def load_page_into_frame (store : Option BackingStore) (s : VMState)
    (victim_frame : Int) (page_number : Int) : VMState :=
  match store with
  | none => s
  | some bs =>
    match find_frame s.frames victim_frame with
    | none => s
    | some _ =>
      let off := (page_number * (PAGE_SIZE : Int)).toNat
      let frames' := set_frame s.frames victim_frame
        (fun f => { f with data := fread_page bs off f.data, last_used := s.current_time })
      let pt₁ := match find_previous_page s.page_table victim_frame with
        | some i => s.page_table.set i (-1)
        | none => s.page_table
      let pt₂ := pt₁.set page_number.toNat victim_frame
      { s with frames := frames', page_table := pt₂, current_time := s.current_time + 1 }

/-- `handle_page_fault`: dispatch on the policy string, pick a victim, load the
page, and (redundantly on the success path, erroneously on the failed-open
path) set `page_table[page_number] = victim_frame` once more.  With an unknown
policy the C function prints an error and returns without replacing anything.
The second component reports the victim chosen (`none` when no replacement was
performed); it is instrumentation only. -/
def handle_page_fault (store : Option BackingStore) (replacement_algorithm : String)
    (s : VMState) (page_number : Int) : VMState × Option Int :=
  if replacement_algorithm = algFifo then
    let p := select_victim_frame_fifo s.next_victim_frame
    let s₁ := { s with next_victim_frame := p.2 }
    let s₂ := load_page_into_frame store s₁ (p.1 : Int) page_number
    ({ s₂ with page_table := s₂.page_table.set page_number.toNat (p.1 : Int) }, some (p.1 : Int))
  else if replacement_algorithm = algLru then
    let victim := select_victim_frame_lru s.frames
    let s₂ := load_page_into_frame store s victim page_number
    ({ s₂ with page_table := s₂.page_table.set page_number.toNat victim }, some victim)
  else (s, none)

/-- `physical_address_calculator`: `(frame_number << OFFSET_BITS) | offset`. -/
def physical_address_calculator (frame_number : Int) (offset : Int) : Int :=
  Int.lor (frame_number <<< (8 : Int)) offset

/-- Reinterpret a raw byte as the C `(signed char)` cast does. -/
def signedChar (b : Nat) : Int :=
  if b % 256 < 128 then (b % 256 : Int) else (b % 256 : Int) - 256

/-- `value_calculator`: find the frame and read `(signed char)data[offset]`.
When no frame matches, the C function returns an uninitialized variable; the
embedding returns `none` there. -/
def value_calculator (frame_head : List Frame) (frame_number : Int) (offset : Int) : Option Int :=
  (find_frame frame_head frame_number).map (fun f => signedChar (f.data offset.toNat))

/-- `update_tlb`: overwrite slot `tlb_entry` with the pair. -/
def update_tlb (T : List (Int × Int)) (page_number frame_number : Int)
    (tlb_entry : Nat) : List (Int × Int) :=
  T.set tlb_entry (page_number, frame_number)

/-- The TLB lookup loop in `check_tlb`: first slot (by index) whose
`page_number` equals the probed page; returns the slot index and the cached
frame number. -/
def tlb_scan : List (Int × Int) → Int → Nat → Option (Nat × Int)
  | [], _, _ => none
  | e :: rest, page, i => if e.1 = page then some (i, e.2) else tlb_scan rest page (i + 1)

def tlb_lookup (T : List (Int × Int)) (page : Int) : Option (Nat × Int) :=
  tlb_scan T page 0

/-- One translation record: the data of one `fprintf` output line (virtual
address, printed TLB field, physical address, byte value) together with the
hit/miss classification, the split of the virtual address, the resolved frame,
and — as instrumentation — the fault victim if this address faulted. -/
structure Record where
  virtual_address : Int
  page_number : Int
  offset : Int
  tlb_hit : Bool
  tlb_index : Int
  frame_number : Int
  physical_address : Int
  value : Option Int
  fault_victim : Option Int
deriving Repr, DecidableEq

/-- The stamp loop duplicated at the end of both branches of `check_tlb`: find
the resolved frame, set `last_used = current_time++`.  When the frame number
matches no frame the loop falls through and neither the stamp nor the clock
changes. -/
def touch_frame (s : VMState) (frame_number : Int) : VMState :=
  match find_frame s.frames frame_number with
  | none => s
  | some _ =>
    { s with
      frames := set_frame s.frames frame_number (fun f => { f with last_used := s.current_time }),
      current_time := s.current_time + 1 }

/-- The TLB-hit branch of `check_tlb`: count the hit, emit the record (TLB
field = slot index), stamp the frame. -/
def hit_branch (s : VMState) (a : Address) (i : Nat) (frame_number : Int) :
    VMState × Record :=
  let s₁ := { s with tlb_hit_counter := s.tlb_hit_counter + 1 }
  let pa := physical_address_calculator frame_number a.offset
  let v := value_calculator s₁.frames frame_number a.offset
  (touch_frame s₁ frame_number,
   ⟨a.virtual_address, a.page_number, a.offset, true, (i : Int), frame_number, pa, v, none⟩)

/-- The common tail of the TLB-miss branch of `check_tlb` (after the optional
fault handling): read the frame from the page table, emit the record (TLB
field = current insertion cursor), insert into the TLB, advance the cursor
modulo 16, stamp the frame. -/
def miss_emit (s : VMState) (a : Address) (victim : Option Int) : VMState × Record :=
  let frame_number := ptGet s.page_table a.page_number
  let pa := physical_address_calculator frame_number a.offset
  let v := value_calculator s.frames frame_number a.offset
  let idx := s.next_tlb_entry
  let s₁ := { s with
    TLB := update_tlb s.TLB a.page_number frame_number idx,
    next_tlb_entry := (idx + 1) % TLB_SIZE }
  (touch_frame s₁ frame_number,
   ⟨a.virtual_address, a.page_number, a.offset, false, (idx : Int), frame_number, pa, v, victim⟩)

/-- The body of `check_tlb`'s loop for one address: TLB lookup; on a hit take
`hit_branch`; on a miss, fault first when `page_table[page] < 0` (counting the
fault), then take the common miss tail. -/
def check_tlb_step (replacement_algorithm : String) (store : Option BackingStore)
    (s : VMState) (a : Address) : VMState × Record :=
  match tlb_lookup s.TLB a.page_number with
  | some (i, frame_number) => hit_branch s a i frame_number
  | none =>
    if ptGet s.page_table a.page_number < 0 then
      let s' := { s with page_fault_counter := s.page_fault_counter + 1 }
      let p := handle_page_fault store replacement_algorithm s' a.page_number
      miss_emit p.1 a p.2
    else miss_emit s a none

/-- `check_tlb`: translate the address list in order, returning the final state
and the emitted records. -/
def check_tlb (replacement_algorithm : String) (store : Option BackingStore) :
    VMState → List Address → VMState × List Record
  | s, [] => (s, [])
  | s, a :: rest =>
    let p := check_tlb_step replacement_algorithm store s a
    let q := check_tlb replacement_algorithm store p.1 rest
    (q.1, p.2 :: q.2)

/-- Like `check_tlb` but pairing each emitted record with the machine state at
the moment the record's output line is complete.  (Within one loop body the
page table is not modified after the `fprintf`, so this state's page table is
the page table at emission time.) -/
def check_tlb_trace (replacement_algorithm : String) (store : Option BackingStore) :
    VMState → List Address → List (VMState × Record)
  | _, [] => []
  | s, a :: rest =>
    let p := check_tlb_step replacement_algorithm store s a
    p :: check_tlb_trace replacement_algorithm store p.1 rest

/-- The address splitter applied to one parsed integer:
`page = (v >> 8) & 0xFF`, `offset = v & 0xFF` (arithmetic shift and
two's-complement mask, as compiled). -/
def split_address (virtual_address : Int) : Address :=
  ⟨virtual_address,
   Int.land (virtual_address >>> (8 : Int)) 255,
   Int.land virtual_address 255⟩

/-- The whitespace skip at the start of `atoi`. -/
def skip_spaces : List Char → List Char
  | [] => []
  | c :: cs =>
    if c = ' ' ∨ c = '\t' ∨ c = '\n' ∨ c = '\x0b' ∨ c = '\x0c' ∨ c = '\x0d' then skip_spaces cs
    else c :: cs

/-- The digit loop of `atoi`: consume the longest digit prefix. -/
def digits_val (acc : Int) : List Char → Int
  | [] => acc
  | c :: cs =>
    if '0' ≤ c ∧ c ≤ '9' then digits_val (acc * 10 + ((c.toNat : Int) - 48)) cs
    else acc

/-- C `atoi`: optional whitespace, optional sign, longest digit prefix, `0`
when no digits are present.  A malformed line is silently mapped to a number
(usually `0`), never rejected. -/
def c_atoi (str : String) : Int :=
  match skip_spaces str.toList with
  | '-' :: cs => - digits_val 0 cs
  | '+' :: cs => digits_val 0 cs
  | cs => digits_val 0 cs

/-- One iteration of `extract_page_number_and_offset`: parse the line with
`atoi` and split the result. -/
def extract_address (line : String) : Address := split_address (c_atoi line)

/-- `extract_page_number_and_offset`: every line — well formed or not — becomes
one address node, and `total_translated_addresses` ends up equal to the number
of lines. -/
def extract_page_number_and_offset (lines : List String) : List Address :=
  lines.map extract_address

/-- The summary block printed after the loop: the three counters.  The two rate
lines divide `page_fault_counter` and `tlb_hit_counter` by
`total_translated_addresses` in floating point with no zero check; the
counters recorded here are the numerators and the shared denominator of those
divisions. -/
structure Summary where
  total_translated : Nat
  page_faults : Nat
  tlb_hits : Nat
deriving Repr, DecidableEq

/-- `main` after argument handling: initialize, parse all lines (setting the
total counter), run `check_tlb`, and emit the summary.  There is no check for
an empty input; the summary (and the rate divisions it feeds) is produced
unconditionally. -/
def vmMain (lines : List String) (replacement_algorithm : String)
    (store : Option BackingStore) : List Record × Summary :=
  let s0 := { initState with total_translated_addresses := lines.length }
  let r := check_tlb replacement_algorithm store s0 (extract_page_number_and_offset lines)
  (r.2, ⟨r.1.total_translated_addresses, r.1.page_fault_counter, r.1.tlb_hit_counter⟩)

/-! Concrete inputs used by counterexamples and witnesses. -/

/-- A fully populated, correctly sized backing store (256 pages of 256 zero
bytes), standing for a readable `BACKING_STORE.bin`. -/
def demoStore : BackingStore := ⟨65536, fun _ => 0⟩

/-- An input line whose content is not a decimal integer. -/
def malformedLine : String := "abc"

/-- An input line holding the address `0`. -/
def zeroLine : String := "0"

/-- Address sequence that manufactures a stale TLB hit under FIFO: fault in
pages `0..127` (filling all 128 frames), re-touch page `0` (a TLB miss / page
hit that re-inserts `(0, frame 0)` into the TLB), fault page `128` (the FIFO
cursor wraps and evicts frame `0`, clearing `page_table[0]`), then access
page `0` again: its TLB entry is still present, so the translation resolves
frame `0` although `page_table[0] = -1`. -/
def staleAddresses : List Address :=
  ((List.range 128).map (fun p => split_address ((p : Int) * 256))) ++
    [split_address 0, split_address 32768, split_address 0]

/-- The emission trace of `staleAddresses` under FIFO with a readable store. -/
def staleTrace : List (VMState × Record) :=
  check_tlb_trace algFifo (some demoStore) initState staleAddresses

/-- Projection of the last element of `staleTrace` (the second access to page
`0`): hit flag, page, offset, resolved frame, and the page-table entry of that
page at emission time. -/
def staleObs : Option (Bool × Int × Int × Int × Int) :=
  staleTrace[130]?.map
    (fun p => (p.2.tlb_hit, p.2.page_number, p.2.offset, p.2.frame_number,
               ptGet p.1.page_table p.2.page_number))

/-- 129 distinct pages (`0, 256, ..., 128*256`), enough to wrap the FIFO
victim cursor once. -/
def dupAddresses : List Address :=
  (List.range 129).map (fun p => split_address ((p : Int) * 256))

/-- The victim frames of the faulting addresses of a run, in order: the
instrumentation fields of the faulting records. -/
def faultVictims (rs : List Record) : List Int := rs.filterMap (fun r => r.fault_victim)

/-- Each occupied frame is owned by exactly one page: two distinct page-table
entries holding the same value are both unmapped (`-1`). -/
def pageTableOneOwner (pt : List Int) : Prop :=
  ∀ (i j : Nat) (vi vj : Int),
    pt[i]? = some vi → pt[j]? = some vj → i ≠ j → vi = vj → vi = -1

/-- No two occupied TLB slots hold the same page number: slots agreeing on
their page field are empty (`-1`). -/
def tlbDistinct (T : List (Int × Int)) : Prop :=
  ∀ (i j : Nat) (ei ej : Int × Int),
    T[i]? = some ei → T[j]? = some ej → i ≠ j → ei.1 = ej.1 → ei.1 = -1

/-- The frame list is in frame-number order, frame `i` at position `i` — true
of the pool built by `init_physical_memory` and preserved forever, since
frame numbers are never rewritten. -/
def framesNumbered (l : List Frame) : Prop :=
  ∀ (i : Nat) (f : Frame), l[i]? = some f → f.frame_number = (i : Int)

/-- The recency stamp of the (first) frame with the given number. -/
def frame_stamp (l : List Frame) (n : Int) : Option Int :=
  (find_frame l n).map (fun f => f.last_used)

/-- The control flow of one `check_tlb` loop iteration as a relation: exactly
one of the three branches (TLB hit; TLB miss / page hit; TLB miss / page
fault) applies to a given state and address. -/
inductive StepR (alg : String) (store : Option BackingStore) :
    VMState → Address → VMState × Record → Prop where
  | tlb_hit : ∀ s a i f, tlb_lookup s.TLB a.page_number = some (i, f) →
      StepR alg store s a (hit_branch s a i f)
  | page_hit : ∀ s a, tlb_lookup s.TLB a.page_number = none →
      ¬ ptGet s.page_table a.page_number < 0 →
      StepR alg store s a (miss_emit s a none)
  | page_fault : ∀ s a, tlb_lookup s.TLB a.page_number = none →
      ptGet s.page_table a.page_number < 0 →
      StepR alg store s a
        (miss_emit (handle_page_fault store alg
            { s with page_fault_counter := s.page_fault_counter + 1 } a.page_number).1 a
          (handle_page_fault store alg
            { s with page_fault_counter := s.page_fault_counter + 1 } a.page_number).2)

/-- The whole translation loop as a relation over the address list. -/
inductive RunR (alg : String) (store : Option BackingStore) :
    VMState → List Address → VMState × List Record → Prop where
  | nil : ∀ s, RunR alg store s [] (s, [])
  | cons : ∀ s a rest s₁ r out, StepR alg store s a (s₁, r) →
      RunR alg store s₁ rest out →
      RunR alg store s (a :: rest) (out.1, r :: out.2)

/-- The first translation step of the one-line input `"0"` under FIFO with a
readable backing store; used by witnesses. -/
def demoP : VMState × Record :=
  check_tlb_step algFifo (some demoStore) initState (extract_address zeroLine)

/-- A two-frame pool for the LRU witness: frame 0 last used at tick 5. -/
def lruF0 : Frame := ⟨fun _ => 0, 0, 5⟩

/-- A two-frame pool for the LRU witness: frame 1 last used at tick 3. -/
def lruF1 : Frame := ⟨fun _ => 0, 1, 3⟩

/-! ### Preservation lemmas for the state components each helper leaves alone -/

lemma load_page_into_frame_preserves (store : Option BackingStore) (s : VMState)
    (v p : Int) :
    (load_page_into_frame store s v p).TLB = s.TLB ∧
    (load_page_into_frame store s v p).next_victim_frame = s.next_victim_frame ∧
    (load_page_into_frame store s v p).page_fault_counter = s.page_fault_counter ∧
    (load_page_into_frame store s v p).tlb_hit_counter = s.tlb_hit_counter ∧
    (load_page_into_frame store s v p).next_tlb_entry = s.next_tlb_entry := by
  cases store with
  | none => exact ⟨rfl, rfl, rfl, rfl, rfl⟩
  | some bs =>
    cases h : find_frame s.frames v with
    | none => simp [load_page_into_frame, h]
    | some f => simp [load_page_into_frame, h]

lemma touch_frame_preserves (s : VMState) (n : Int) :
    (touch_frame s n).page_table = s.page_table ∧
    (touch_frame s n).TLB = s.TLB ∧
    (touch_frame s n).next_victim_frame = s.next_victim_frame ∧
    (touch_frame s n).page_fault_counter = s.page_fault_counter ∧
    (touch_frame s n).tlb_hit_counter = s.tlb_hit_counter ∧
    (touch_frame s n).next_tlb_entry = s.next_tlb_entry := by
  cases h : find_frame s.frames n with
  | none => simp [touch_frame, h]
  | some f => simp [touch_frame, h]

lemma handle_page_fault_preserves (store : Option BackingStore) (alg : String)
    (s : VMState) (p : Int) :
    (handle_page_fault store alg s p).1.TLB = s.TLB ∧
    (handle_page_fault store alg s p).1.page_fault_counter = s.page_fault_counter ∧
    (handle_page_fault store alg s p).1.tlb_hit_counter = s.tlb_hit_counter ∧
    (handle_page_fault store alg s p).1.next_tlb_entry = s.next_tlb_entry := by
  by_cases h1 : alg = algFifo
  · simp only [handle_page_fault, if_pos h1]
    have hl := load_page_into_frame_preserves store
      { s with next_victim_frame := (select_victim_frame_fifo s.next_victim_frame).2 }
      ((select_victim_frame_fifo s.next_victim_frame).1 : Int) p
    exact ⟨hl.1, hl.2.2.1, hl.2.2.2.1, hl.2.2.2.2⟩
  · by_cases h2 : alg = algLru
    · simp only [handle_page_fault, if_neg h1, if_pos h2]
      have hl := load_page_into_frame_preserves store s (select_victim_frame_lru s.frames) p
      exact ⟨hl.1, hl.2.2.1, hl.2.2.2.1, hl.2.2.2.2⟩
    · simp [handle_page_fault, if_neg h1, if_neg h2]

/-! ### Shape lemmas for the two emission branches and the step -/

lemma hit_branch_record (s : VMState) (a : Address) (i : Nat) (f : Int) :
    (hit_branch s a i f).2 =
      ⟨a.virtual_address, a.page_number, a.offset, true, (i : Int), f,
        physical_address_calculator f a.offset,
        value_calculator s.frames f a.offset, none⟩ := rfl

lemma hit_branch_state (s : VMState) (a : Address) (i : Nat) (f : Int) :
    (hit_branch s a i f).1.page_table = s.page_table ∧
    (hit_branch s a i f).1.TLB = s.TLB ∧
    (hit_branch s a i f).1.next_victim_frame = s.next_victim_frame ∧
    (hit_branch s a i f).1.page_fault_counter = s.page_fault_counter ∧
    (hit_branch s a i f).1.next_tlb_entry = s.next_tlb_entry := by
  have ht := touch_frame_preserves { s with tlb_hit_counter := s.tlb_hit_counter + 1 } f
  exact ⟨ht.1, ht.2.1, ht.2.2.1, ht.2.2.2.1, ht.2.2.2.2.2⟩

lemma miss_emit_record (s : VMState) (a : Address) (v : Option Int) :
    (miss_emit s a v).2 =
      ⟨a.virtual_address, a.page_number, a.offset, false, (s.next_tlb_entry : Int),
        ptGet s.page_table a.page_number,
        physical_address_calculator (ptGet s.page_table a.page_number) a.offset,
        value_calculator s.frames (ptGet s.page_table a.page_number) a.offset, v⟩ := rfl

lemma miss_emit_state (s : VMState) (a : Address) (v : Option Int) :
    (miss_emit s a v).1.page_table = s.page_table ∧
    (miss_emit s a v).1.TLB =
      update_tlb s.TLB a.page_number (ptGet s.page_table a.page_number) s.next_tlb_entry ∧
    (miss_emit s a v).1.next_tlb_entry = (s.next_tlb_entry + 1) % TLB_SIZE ∧
    (miss_emit s a v).1.next_victim_frame = s.next_victim_frame ∧
    (miss_emit s a v).1.page_fault_counter = s.page_fault_counter := by
  have ht := touch_frame_preserves
    { s with
      TLB := update_tlb s.TLB a.page_number (ptGet s.page_table a.page_number) s.next_tlb_entry,
      next_tlb_entry := (s.next_tlb_entry + 1) % TLB_SIZE }
    (ptGet s.page_table a.page_number)
  exact ⟨ht.1, ht.2.1, ht.2.2.2.2.2, ht.2.2.1, ht.2.2.2.1⟩

lemma check_tlb_step_hit (alg : String) (store : Option BackingStore) (s : VMState)
    (a : Address) (i : Nat) (f : Int)
    (h : tlb_lookup s.TLB a.page_number = some (i, f)) :
    check_tlb_step alg store s a = hit_branch s a i f := by
  simp [check_tlb_step, h]

lemma check_tlb_step_page_hit (alg : String) (store : Option BackingStore) (s : VMState)
    (a : Address) (h1 : tlb_lookup s.TLB a.page_number = none)
    (h2 : ¬ ptGet s.page_table a.page_number < 0) :
    check_tlb_step alg store s a = miss_emit s a none := by
  simp [check_tlb_step, h1, h2]

lemma check_tlb_step_fault (alg : String) (store : Option BackingStore) (s : VMState)
    (a : Address) (h1 : tlb_lookup s.TLB a.page_number = none)
    (h2 : ptGet s.page_table a.page_number < 0) :
    check_tlb_step alg store s a =
      miss_emit (handle_page_fault store alg
          { s with page_fault_counter := s.page_fault_counter + 1 } a.page_number).1 a
        (handle_page_fault store alg
          { s with page_fault_counter := s.page_fault_counter + 1 } a.page_number).2 := by
  simp [check_tlb_step, h1, h2]

lemma check_tlb_nil (alg : String) (store : Option BackingStore) (s : VMState) :
    check_tlb alg store s [] = (s, []) := rfl

lemma check_tlb_cons (alg : String) (store : Option BackingStore) (s : VMState)
    (a : Address) (rest : List Address) :
    check_tlb alg store s (a :: rest) =
      ((check_tlb alg store (check_tlb_step alg store s a).1 rest).1,
       (check_tlb_step alg store s a).2 ::
         (check_tlb alg store (check_tlb_step alg store s a).1 rest).2) := rfl

lemma check_tlb_trace_nil (alg : String) (store : Option BackingStore) (s : VMState) :
    check_tlb_trace alg store s [] = [] := rfl

lemma check_tlb_trace_cons (alg : String) (store : Option BackingStore) (s : VMState)
    (a : Address) (rest : List Address) :
    check_tlb_trace alg store s (a :: rest) =
      check_tlb_step alg store s a ::
        check_tlb_trace alg store (check_tlb_step alg store s a).1 rest := rfl

/-! ### Concrete evaluations of the code on the inputs that decide the
error-handling claims -/

set_option maxRecDepth 100000 in
set_option maxHeartbeats 4000000 in
/-- Evaluation of the stale-TLB run: the final record (second access to page
`0`) is a TLB hit that resolves frame `0`, while `page_table[0]` is `-1` at
emission time. -/
lemma stale_trace_eval : staleObs = some (true, 0, 0, 0, -1) := by decide

/-- C7: with zero input addresses the program does not fail with `EmptyInput`:
`main` runs to completion and emits the summary with `total = 0`, which then
feeds the two rate divisions `count / total` with a zero divisor. -/
theorem c7_empty_input_emits_summary :
    ∀ (alg : String) (store : Option BackingStore),
      vmMain [] alg store = ([], ⟨0, 0, 0⟩) :=
  fun _ _ => rfl

set_option maxRecDepth 100000 in
/-- C8: the malformed input line `"abc"` is not rejected and produces no
warning: `atoi` silently coerces it to `0`, and the run translates it as
address `0` — one ordinary output record, and a total of 1 translated
address. -/
theorem c8_malformed_line_silently_coerced :
    c_atoi malformedLine = 0 ∧
    vmMain [malformedLine] algFifo (some demoStore) =
      ([⟨0, 0, 0, false, 0, 0, 0, some 0, some 0⟩], ⟨1, 1, 0⟩) := by
  constructor
  · decide
  · decide

set_option maxRecDepth 100000 in
/-- C6: with the backing store unavailable (the `fopen` in
`load_page_into_frame` fails), translating address `256` (page 1) still
installs the page-table mapping `page_table[1] = 0` — `handle_page_fault`
maps the page after `load_page_into_frame` returned without loading — and
emits an ordinary record whose value is read from the unpopulated
(zero-filled) frame.  The failure is fatal neither for the address nor for
the run. -/
theorem c6_mapping_installed_despite_failed_load :
    (let r := check_tlb algFifo none initState [split_address 256]
     (ptGet r.1.page_table 1, r.2)) =
      (0, [⟨256, 1, 0, false, 0, 0, 0, some 0, some 0⟩]) := by decide

set_option maxRecDepth 100000 in
set_option maxHeartbeats 4000000 in
/-- Evaluation for C2: after faulting pages `0..128` under FIFO with the
backing store unavailable, both `page_table[0]` and `page_table[128]` hold
frame `0`: the eviction of fault 129 never cleared page 0's entry, because
the clearing lives in `load_page_into_frame` behind the successful `fopen`,
while `handle_page_fault` installs the new mapping unconditionally. -/
lemma dup_run_eval :
    (let s := (check_tlb algFifo none initState dupAddresses).1
     (s.page_table[0]?, s.page_table[128]?)) = (some 0, some 0) := by decide

set_option maxRecDepth 100000 in
set_option maxHeartbeats 4000000 in
/-- C2: the one-owner-per-frame invariant is violated on the error path: with
the backing store unavailable, the run over pages `0..128` ends with two
distinct page-table entries (pages 0 and 128) both referencing frame `0`. -/
theorem c2_duplicate_mapping_on_failed_load :
    ¬ pageTableOneOwner (check_tlb algFifo none initState dupAddresses).1.page_table := by
  intro h
  have h0 : (check_tlb algFifo none initState dupAddresses).1.page_table[0]? = some 0 :=
    congrArg Prod.fst dup_run_eval
  have h128 : (check_tlb algFifo none initState dupAddresses).1.page_table[128]? = some 0 :=
    congrArg Prod.snd dup_run_eval
  have hc := h 0 128 0 0 h0 h128 (by decide) rfl
  exact absurd hc (by decide)

/-- C3 counterexample: it is not true that every emitted record resolves its
page to a frame that the page table still maps to that page at emission time:
in the stale-TLB run the final record resolves page `0` to frame `0` through
a TLB hit while `page_table[0] = -1`. -/
theorem c3_counterexample :
    ¬ (∀ p ∈ staleTrace, ptGet p.1.page_table p.2.page_number = p.2.frame_number) := by
  intro h
  have he := stale_trace_eval
  rw [staleObs] at he
  cases hp : staleTrace[130]? with
  | none => rw [hp] at he; simp at he
  | some p =>
    rw [hp] at he
    have hfr : p.2.frame_number = 0 := by
      simpa using congrArg (fun o => o.map (fun t => t.2.2.2.1)) he
    have hpt : ptGet p.1.page_table p.2.page_number = -1 := by
      simpa using congrArg (fun o => o.map (fun t => t.2.2.2.2)) he
    have hm : p ∈ staleTrace := by
      rw [← List.get?_eq_getElem?] at hp
      exact List.get?_mem hp
    have hc := h p hm
    rw [hfr] at hc
    exact absurd (hpt.symm.trans hc) (by decide)

/-- C1 counterexample: it is not true that every emitted record's physical
address is built from a frame that is both the resolved frame and the frame
currently mapped to the record's page: the stale-TLB run's final record
resolves frame `0` for page `0` while no frame is mapped to page `0`
(`page_table[0] = -1`). -/
theorem c1_counterexample :
    ¬ (∀ p ∈ staleTrace,
        p.2.physical_address = physical_address_calculator p.2.frame_number p.2.offset ∧
        ptGet p.1.page_table p.2.page_number = p.2.frame_number) := by
  intro h
  have he := stale_trace_eval
  rw [staleObs] at he
  cases hp : staleTrace[130]? with
  | none => rw [hp] at he; simp at he
  | some p =>
    rw [hp] at he
    have hfr : p.2.frame_number = 0 := by
      simpa using congrArg (fun o => o.map (fun t => t.2.2.2.1)) he
    have hpt : ptGet p.1.page_table p.2.page_number = -1 := by
      simpa using congrArg (fun o => o.map (fun t => t.2.2.2.2)) he
    have hm : p ∈ staleTrace := by
      rw [← List.get?_eq_getElem?] at hp
      exact List.get?_mem hp
    have hc := (h p hm).2
    rw [hfr] at hc
    exact absurd (hpt.symm.trans hc) (by decide)

/-! ### Per-record facts that hold on every path of the step -/

lemma check_tlb_trace_mem (alg : String) (store : Option BackingStore) :
    ∀ (addrs : List Address) (s : VMState) (p : VMState × Record),
      p ∈ check_tlb_trace alg store s addrs →
      ∃ (s' : VMState) (a : Address), a ∈ addrs ∧ p = check_tlb_step alg store s' a := by
  intro addrs
  induction addrs with
  | nil => intro s p hp; simp [check_tlb_trace_nil] at hp
  | cons a rest ih =>
    intro s p hp
    rw [check_tlb_trace_cons] at hp
    rcases List.mem_cons.mp hp with h | h
    · exact ⟨s, a, List.mem_cons_self a rest, h⟩
    · obtain ⟨s', a', ha', hpe⟩ := ih (check_tlb_step alg store s a).1 p h
      exact ⟨s', a', List.mem_cons_of_mem a ha', hpe⟩

lemma check_tlb_step_record_spec (alg : String) (store : Option BackingStore)
    (s : VMState) (a : Address) :
    (check_tlb_step alg store s a).2.virtual_address = a.virtual_address ∧
    (check_tlb_step alg store s a).2.page_number = a.page_number ∧
    (check_tlb_step alg store s a).2.offset = a.offset ∧
    (check_tlb_step alg store s a).2.physical_address =
      physical_address_calculator (check_tlb_step alg store s a).2.frame_number
        (check_tlb_step alg store s a).2.offset ∧
    ((check_tlb_step alg store s a).2.tlb_hit = false →
      ptGet (check_tlb_step alg store s a).1.page_table
          (check_tlb_step alg store s a).2.page_number =
        (check_tlb_step alg store s a).2.frame_number) := by
  cases htl : tlb_lookup s.TLB a.page_number with
  | some v =>
    obtain ⟨i, f⟩ := v
    rw [check_tlb_step_hit alg store s a i f htl]
    refine ⟨rfl, rfl, rfl, rfl, fun hfalse => ?_⟩
    simp [hit_branch_record] at hfalse
  | none =>
    by_cases hpt : ptGet s.page_table a.page_number < 0
    · rw [check_tlb_step_fault alg store s a htl hpt]
      refine ⟨rfl, rfl, rfl, rfl, fun _ => ?_⟩
      rw [(miss_emit_state _ _ _).1]
      exact rfl
    · rw [check_tlb_step_page_hit alg store s a htl hpt]
      refine ⟨rfl, rfl, rfl, rfl, fun _ => ?_⟩
      rw [(miss_emit_state _ _ _).1]
      exact rfl

/-- C1 (amended): for every address of the input sequence, the emitted record
satisfies `physical = (f << 8) | offset` where `f` is the frame the
translation resolved, with `page = (V >> 8) & 0xFF` and `offset = V & 0xFF`;
and whenever the resolution went through the page table (TLB miss), `f` is
the frame currently mapped to the page at the time the record is emitted.  A
TLB hit, however, may resolve a frame that is no longer mapped to the page
(see `c1_counterexample`). -/
theorem c1_round_trip_amended :
    ∀ (lines : List String) (alg : String) (store : Option BackingStore) (s : VMState),
      ∀ p ∈ check_tlb_trace alg store s (extract_page_number_and_offset lines),
        p.2.page_number = Int.land (p.2.virtual_address >>> (8 : Int)) 255 ∧
        p.2.offset = Int.land p.2.virtual_address 255 ∧
        p.2.physical_address = physical_address_calculator p.2.frame_number p.2.offset ∧
        (p.2.tlb_hit = false →
          ptGet p.1.page_table p.2.page_number = p.2.frame_number) := by
  intro lines alg store s p hp
  obtain ⟨s', a, ha, rfl⟩ := check_tlb_trace_mem alg store _ s p hp
  obtain ⟨h1, h2, h3, h4, h5⟩ := check_tlb_step_record_spec alg store s' a
  obtain ⟨line, hline, rfl⟩ := List.mem_map.mp ha
  refine ⟨?_, ?_, h4, h5⟩
  · rw [h2, h1]; rfl
  · rw [h3, h1]; rfl

set_option maxRecDepth 100000 in
/-- Witness for C1's amended theorem: the first record of the one-line input
`"0"` under FIFO with a readable store satisfies all four conjuncts. -/
theorem c1_round_trip_amended_witness :
    demoP.2.page_number = Int.land (demoP.2.virtual_address >>> (8 : Int)) 255 ∧
    demoP.2.offset = Int.land demoP.2.virtual_address 255 ∧
    demoP.2.physical_address = physical_address_calculator demoP.2.frame_number demoP.2.offset ∧
    (demoP.2.tlb_hit = false →
      ptGet demoP.1.page_table demoP.2.page_number = demoP.2.frame_number) := by
  have hm : demoP ∈ check_tlb_trace algFifo (some demoStore) initState
      (extract_page_number_and_offset [zeroLine]) :=
    (List.mem_singleton.mpr rfl : demoP ∈ [demoP])
  exact c1_round_trip_amended [zeroLine] algFifo (some demoStore) initState demoP hm

/-- C3 (amended): every translation resolved through the page table — i.e.
every record classified as a TLB miss, whether page hit or page fault —
returns a frame `f` with `page_table[p] = f` at the moment the record is
produced.  Translations resolved through a TLB hit may instead return a stale
frame (see `c3_counterexample`): the TLB is never invalidated when a frame is
reassigned. -/
theorem c3_mapped_on_miss_amended :
    ∀ (addrs : List Address) (alg : String) (store : Option BackingStore) (s : VMState),
      ∀ p ∈ check_tlb_trace alg store s addrs,
        p.2.tlb_hit = false →
        ptGet p.1.page_table p.2.page_number = p.2.frame_number := by
  intro addrs alg store s p hp
  obtain ⟨s', a, ha, rfl⟩ := check_tlb_trace_mem alg store addrs s p hp
  exact (check_tlb_step_record_spec alg store s' a).2.2.2.2

set_option maxRecDepth 100000 in
/-- Witness for C3's amended theorem: the first record of the single-address
run of address 0 is a TLB miss and its frame is the one mapped in the page
table at emission. -/
theorem c3_mapped_on_miss_amended_witness :
    ptGet demoP.1.page_table demoP.2.page_number = demoP.2.frame_number := by
  have hm : demoP ∈ check_tlb_trace algFifo (some demoStore) initState
      [extract_address zeroLine] :=
    (List.mem_singleton.mpr rfl : demoP ∈ [demoP])
  exact c3_mapped_on_miss_amended [extract_address zeroLine] algFifo (some demoStore)
    initState demoP hm (by decide)

/-! ### TLB slot distinctness (C9) -/

lemma tlb_scan_none :
    ∀ (T : List (Int × Int)) (page : Int) (i : Nat),
      tlb_scan T page i = none → ∀ e ∈ T, e.1 ≠ page := by
  intro T
  induction T with
  | nil => intro page i h e he; simp at he
  | cons x rest ih =>
    intro page i h e he
    simp only [tlb_scan] at h
    by_cases hx : x.1 = page
    · rw [if_pos hx] at h; cases h
    · rw [if_neg hx] at h
      rcases List.mem_cons.mp he with rfl | hm
      · exact hx
      · exact ih page (i + 1) h e hm

lemma tlbDistinct_update (T : List (Int × Int)) (page f : Int) (c : Nat)
    (hd : tlbDistinct T) (hnone : ∀ e ∈ T, e.1 ≠ page) :
    tlbDistinct (update_tlb T page f c) := by
  intro i j ei ej hi hj hij heq
  simp only [update_tlb] at hi hj
  by_cases hic : c = i
  · subst hic
    rw [List.getElem?_set_self'] at hi
    cases ht : T[c]? with
    | none => rw [ht] at hi; cases hi
    | some t =>
      rw [ht] at hi
      injection hi with hi
      have hei : ei = (page, f) := hi.symm
      have hjc : c ≠ j := fun hcj => hij hcj
      rw [List.getElem?_set_ne hjc] at hj
      have hejm : ej ∈ T := by
        rw [← List.get?_eq_getElem?] at hj
        exact List.get?_mem hj
      exact absurd (hei ▸ heq : (page, f).1 = ej.1).symm (hnone ej hejm)
  · rw [List.getElem?_set_ne hic] at hi
    by_cases hjc : c = j
    · subst hjc
      rw [List.getElem?_set_self'] at hj
      cases ht : T[c]? with
      | none => rw [ht] at hj; cases hj
      | some t =>
        rw [ht] at hj
        injection hj with hj
        have hej : ej = (page, f) := hj.symm
        have heim : ei ∈ T := by
          rw [← List.get?_eq_getElem?] at hi
          exact List.get?_mem hi
        exact absurd (hej ▸ heq : ei.1 = (page, f).1) (hnone ei heim)
    · rw [List.getElem?_set_ne hjc] at hj
      exact hd i j ei ej hi hj hij heq

lemma tlbDistinct_check_tlb_step (alg : String) (store : Option BackingStore)
    (s : VMState) (a : Address) (hd : tlbDistinct s.TLB) :
    tlbDistinct (check_tlb_step alg store s a).1.TLB := by
  cases htl : tlb_lookup s.TLB a.page_number with
  | some v =>
    obtain ⟨i, f⟩ := v
    rw [check_tlb_step_hit alg store s a i f htl, (hit_branch_state s a i f).2.1]
    exact hd
  | none =>
    have hnone : ∀ e ∈ s.TLB, e.1 ≠ a.page_number := tlb_scan_none s.TLB a.page_number 0 htl
    by_cases hpt : ptGet s.page_table a.page_number < 0
    · rw [check_tlb_step_fault alg store s a htl hpt, (miss_emit_state _ _ _).2.1]
      have hTLB : (handle_page_fault store alg
          { s with page_fault_counter := s.page_fault_counter + 1 } a.page_number).1.TLB =
          s.TLB :=
        (handle_page_fault_preserves store alg _ a.page_number).1
      rw [hTLB]
      exact tlbDistinct_update _ _ _ _ hd hnone
    · rw [check_tlb_step_page_hit alg store s a htl hpt, (miss_emit_state _ _ _).2.1]
      exact tlbDistinct_update _ _ _ _ hd hnone

/-- C9: in every reachable state all occupied TLB slots hold pairwise-distinct
page numbers.  The TLB starts with all slots empty, a hit never modifies it,
and a slot is only written right after a lookup miss for that page, so the
inserted page occupies exactly one slot; hence the first-match TLB scan is
unambiguous.  Stated as: the initial TLB is distinct, and any run from a
distinct-TLB state ends (and hence passes only through states) with a
distinct TLB. -/
theorem c9_tlb_occupied_slots_distinct :
    tlbDistinct initState.TLB ∧
    ∀ (addrs : List Address) (alg : String) (store : Option BackingStore) (s : VMState),
      tlbDistinct s.TLB → tlbDistinct (check_tlb alg store s addrs).1.TLB := by
  constructor
  · intro i j ei ej hi hj hij heq
    have hmem : ei ∈ initState.TLB := by
      rw [← List.get?_eq_getElem?] at hi
      exact List.get?_mem hi
    have : ei = (-1, -1) := List.eq_of_mem_replicate hmem
    rw [this]
  · intro addrs
    induction addrs with
    | nil => intro alg store s hd; exact hd
    | cons a rest ih =>
      intro alg store s hd
      rw [check_tlb_cons]
      exact ih alg store _ (tlbDistinct_check_tlb_step alg store s a hd)

/-- Witness for C9: the final TLB of a concrete single-address run is
distinct, obtained by applying the theorem with its hypothesis discharged by
the theorem's own base case. -/
theorem c9_tlb_occupied_slots_distinct_witness :
    tlbDistinct (check_tlb algFifo none initState [split_address 256]).1.TLB :=
  c9_tlb_occupied_slots_distinct.2 [split_address 256] algFifo none initState
    c9_tlb_occupied_slots_distinct.1

/-! ### Determinism of the translation pipeline (C10) -/

lemma stepR_total (alg : String) (store : Option BackingStore) (s : VMState) (a : Address) :
    StepR alg store s a (check_tlb_step alg store s a) := by
  cases htl : tlb_lookup s.TLB a.page_number with
  | some v =>
    obtain ⟨i, f⟩ := v
    rw [check_tlb_step_hit alg store s a i f htl]
    exact StepR.tlb_hit s a i f htl
  | none =>
    by_cases hpt : ptGet s.page_table a.page_number < 0
    · rw [check_tlb_step_fault alg store s a htl hpt]
      exact StepR.page_fault s a htl hpt
    · rw [check_tlb_step_page_hit alg store s a htl hpt]
      exact StepR.page_hit s a htl hpt

lemma stepR_deterministic (alg : String) (store : Option BackingStore) (s : VMState)
    (a : Address) (o₁ o₂ : VMState × Record)
    (h₁ : StepR alg store s a o₁) (h₂ : StepR alg store s a o₂) : o₁ = o₂ := by
  cases h₁ with
  | tlb_hit i f hl₁ =>
    cases h₂ with
    | tlb_hit i' f' hl₂ =>
      have h := hl₁.symm.trans hl₂
      injection h with h
      injection h with h1 h2
      subst h1; subst h2; rfl
    | page_hit hl₂ _ => rw [hl₁] at hl₂; cases hl₂
    | page_fault hl₂ _ => rw [hl₁] at hl₂; cases hl₂
  | page_hit hl₁ hp₁ =>
    cases h₂ with
    | tlb_hit i f hl₂ => rw [hl₂] at hl₁; cases hl₁
    | page_hit _ _ => rfl
    | page_fault _ hp₂ => exact absurd hp₂ hp₁
  | page_fault hl₁ hp₁ =>
    cases h₂ with
    | tlb_hit i f hl₂ => rw [hl₂] at hl₁; cases hl₁
    | page_hit _ hp₂ => exact absurd hp₁ hp₂
    | page_fault _ _ => rfl

lemma runR_total (alg : String) (store : Option BackingStore) :
    ∀ (addrs : List Address) (s : VMState),
      RunR alg store s addrs (check_tlb alg store s addrs) := by
  intro addrs
  induction addrs with
  | nil => intro s; exact RunR.nil s
  | cons a rest ih =>
    intro s
    rw [check_tlb_cons]
    exact RunR.cons s a rest (check_tlb_step alg store s a).1 (check_tlb_step alg store s a).2
      _ (stepR_total alg store s a) (ih (check_tlb_step alg store s a).1)

lemma runR_deterministic (alg : String) (store : Option BackingStore) :
    ∀ (addrs : List Address) (s : VMState) (o₁ o₂ : VMState × List Record),
      RunR alg store s addrs o₁ → RunR alg store s addrs o₂ → o₁ = o₂ := by
  intro addrs
  induction addrs with
  | nil =>
    intro s o₁ o₂ h₁ h₂
    cases h₁; cases h₂; rfl
  | cons a rest ih =>
    intro s o₁ o₂ h₁ h₂
    cases h₁
    rename_i s₁ r out hs₁ hr₁
    cases h₂
    rename_i s₂x r' out' hs₂ hr₂
    have he := stepR_deterministic alg store s a (s₁, r) (s₂x, r') hs₁ hs₂
    injection he with he1 he2
    subst he1; subst he2
    rw [ih s₁ out out' hr₁ hr₂]

/-- C10: the simulation is deterministic.  The translation loop, seen as a
relation (`RunR`, whose three step branches mirror the control flow of
`check_tlb`), is total — it relates every start state and address list to the
output computed by the code — and admits at most one outcome: two runs over
identical address lists, identical backing-store contents, and the same
replacement-policy selector produce identical record lists (classification,
TLB slot, physical address, value) and identical final states, hence
identical counters. -/
theorem c10_simulation_deterministic :
    (∀ (alg : String) (store : Option BackingStore) (s : VMState) (addrs : List Address),
      RunR alg store s addrs (check_tlb alg store s addrs)) ∧
    (∀ (alg : String) (store : Option BackingStore) (addrs : List Address) (s : VMState)
      (o₁ o₂ : VMState × List Record),
      RunR alg store s addrs o₁ → RunR alg store s addrs o₂ → o₁ = o₂) :=
  ⟨fun alg store s addrs => runR_total alg store addrs s,
   fun alg store addrs s o₁ o₂ h₁ h₂ => runR_deterministic alg store addrs s o₁ o₂ h₁ h₂⟩

/-- Witness for C10: two derivations of the concrete single-address run
collapse to the same outcome. -/
theorem c10_simulation_deterministic_witness :
    check_tlb algFifo none initState [split_address 256] =
      check_tlb algFifo none initState [split_address 256] :=
  c10_simulation_deterministic.2 algFifo none [split_address 256] initState _ _
    (c10_simulation_deterministic.1 algFifo none initState [split_address 256])
    (c10_simulation_deterministic.1 algFifo none initState [split_address 256])

/-! ### FIFO victim selection (C4) -/

lemma select_victim_frame_fifo_spec (n : Nat) (h : n ≤ PHYSICAL_MEMORY_FRAMES) :
    select_victim_frame_fifo n =
      (n % PHYSICAL_MEMORY_FRAMES, n % PHYSICAL_MEMORY_FRAMES + 1) := by
  unfold select_victim_frame_fifo
  by_cases hge : PHYSICAL_MEMORY_FRAMES ≤ n
  · have hn : n = PHYSICAL_MEMORY_FRAMES := Nat.le_antisymm h hge
    subst hn
    simp
  · have hlt : n < PHYSICAL_MEMORY_FRAMES := Nat.lt_of_not_le hge
    simp [hge, Nat.mod_eq_of_lt hlt]

lemma handle_page_fault_fifo (store : Option BackingStore) (s : VMState) (p : Int) :
    (handle_page_fault store algFifo s p).2 =
      some ((select_victim_frame_fifo s.next_victim_frame).1 : Int) ∧
    (handle_page_fault store algFifo s p).1.next_victim_frame =
      (select_victim_frame_fifo s.next_victim_frame).2 ∧
    (handle_page_fault store algFifo s p).1.page_fault_counter = s.page_fault_counter := by
  have hl := load_page_into_frame_preserves store
    { s with next_victim_frame := (select_victim_frame_fifo s.next_victim_frame).2 }
    ((select_victim_frame_fifo s.next_victim_frame).1 : Int) p
  exact ⟨rfl, hl.2.1, hl.2.2.1⟩

lemma fifo_fault_victims (store : Option BackingStore) :
    ∀ (addrs : List Address) (s : VMState),
      s.next_victim_frame ≤ PHYSICAL_MEMORY_FRAMES →
      s.next_victim_frame % PHYSICAL_MEMORY_FRAMES =
        s.page_fault_counter % PHYSICAL_MEMORY_FRAMES →
      ∀ (j : Nat) (v : Int),
        (faultVictims (check_tlb algFifo store s addrs).2)[j]? = some v →
        v = (((s.page_fault_counter + j) % PHYSICAL_MEMORY_FRAMES : Nat) : Int) := by
  intro addrs
  induction addrs with
  | nil =>
    intro s _ _ j v hj
    simp [check_tlb_nil, faultVictims] at hj
  | cons a rest ih =>
    intro s hle hmod j v hj
    rw [check_tlb_cons] at hj
    cases htl : tlb_lookup s.TLB a.page_number with
    | some pr =>
      obtain ⟨i, f⟩ := pr
      rw [check_tlb_step_hit algFifo store s a i f htl] at hj
      rw [faultVictims, List.filterMap_cons, hit_branch_record] at hj
      have hst := hit_branch_state s a i f
      have hv := ih (hit_branch s a i f).1
        (by rw [hst.2.2.1]; exact hle)
        (by rw [hst.2.2.1, hst.2.2.2.1]; exact hmod) j v hj
      rw [hv, hst.2.2.2.1]
    | none =>
      by_cases hpt : ptGet s.page_table a.page_number < 0
      · rw [check_tlb_step_fault algFifo store s a htl hpt] at hj
        have hh := handle_page_fault_fifo store
          { s with page_fault_counter := s.page_fault_counter + 1 } a.page_number
        rw [faultVictims, List.filterMap_cons, miss_emit_record] at hj
        rw [show
          (⟨a.virtual_address, a.page_number, a.offset, false,
            ((handle_page_fault store algFifo
              { s with page_fault_counter := s.page_fault_counter + 1 }
              a.page_number).1.next_tlb_entry : Int),
            ptGet (handle_page_fault store algFifo
              { s with page_fault_counter := s.page_fault_counter + 1 }
              a.page_number).1.page_table a.page_number,
            physical_address_calculator (ptGet (handle_page_fault store algFifo
              { s with page_fault_counter := s.page_fault_counter + 1 }
              a.page_number).1.page_table a.page_number) a.offset,
            value_calculator (handle_page_fault store algFifo
              { s with page_fault_counter := s.page_fault_counter + 1 }
              a.page_number).1.frames (ptGet (handle_page_fault store algFifo
              { s with page_fault_counter := s.page_fault_counter + 1 }
              a.page_number).1.page_table a.page_number) a.offset,
            (handle_page_fault store algFifo
              { s with page_fault_counter := s.page_fault_counter + 1 }
              a.page_number).2⟩ : Record).fault_victim =
          some ((select_victim_frame_fifo s.next_victim_frame).1 : Int) from hh.1] at hj
        have hms := miss_emit_state (handle_page_fault store algFifo
          { s with page_fault_counter := s.page_fault_counter + 1 } a.page_number).1 a
          (handle_page_fault store algFifo
            { s with page_fault_counter := s.page_fault_counter + 1 } a.page_number).2
        cases j with
        | zero =>
          rw [List.getElem?_cons_zero] at hj
          injection hj with hj
          rw [← hj, select_victim_frame_fifo_spec s.next_victim_frame hle, hmod]
          simp
        | succ j' =>
          rw [List.getElem?_cons_succ] at hj
          have hnv :
              (miss_emit (handle_page_fault store algFifo
                { s with page_fault_counter := s.page_fault_counter + 1 }
                a.page_number).1 a
                (handle_page_fault store algFifo
                  { s with page_fault_counter := s.page_fault_counter + 1 }
                  a.page_number).2).1.next_victim_frame =
              s.next_victim_frame % PHYSICAL_MEMORY_FRAMES + 1 := by
            rw [hms.2.2.2.1, hh.2.1, select_victim_frame_fifo_spec s.next_victim_frame hle]
          have hcnt :
              (miss_emit (handle_page_fault store algFifo
                { s with page_fault_counter := s.page_fault_counter + 1 }
                a.page_number).1 a
                (handle_page_fault store algFifo
                  { s with page_fault_counter := s.page_fault_counter + 1 }
                  a.page_number).2).1.page_fault_counter =
              s.page_fault_counter + 1 := by
            rw [hms.2.2.2.2, hh.2.2]
          have hv := ih _
            (by rw [hnv]; simp only [PHYSICAL_MEMORY_FRAMES]; omega)
            (by
              rw [hnv, hcnt]
              simp only [PHYSICAL_MEMORY_FRAMES] at hmod ⊢
              omega) j' v hj
          rw [hv, hcnt]
          congr 1
          simp only [PHYSICAL_MEMORY_FRAMES]
          omega
      · rw [check_tlb_step_page_hit algFifo store s a htl hpt] at hj
        rw [faultVictims, List.filterMap_cons, miss_emit_record] at hj
        have hms := miss_emit_state s a none
        have hv := ih (miss_emit s a none).1
          (by rw [hms.2.2.2.1]; exact hle)
          (by rw [hms.2.2.2.1, hms.2.2.2.2]; exact hmod) j v hj
        rw [hv, hms.2.2.2.2]

/-- C4: under FIFO replacement, `select_victim_frame_fifo` returns the
rotating cursor's current value (normalized into `0..127`) and advances it
circularly, consulting no frame metadata (it is a function of the cursor
alone); consequently, in every run the `j`-th fault is assigned victim frame
`j mod 128`, so faults are served in strict insertion order: whenever a fault
`j + 128` occurs, it evicts exactly the frame assigned at fault `j` — in
particular the 129th fault evicts the first-faulted-in page's frame. -/
theorem c4_fifo_eviction_order :
    (∀ (n : Nat), n ≤ PHYSICAL_MEMORY_FRAMES →
      select_victim_frame_fifo n =
        (n % PHYSICAL_MEMORY_FRAMES, n % PHYSICAL_MEMORY_FRAMES + 1)) ∧
    (∀ (addrs : List Address) (store : Option BackingStore) (j : Nat) (v : Int),
      (faultVictims (check_tlb algFifo store initState addrs).2)[j]? = some v →
      v = ((j % PHYSICAL_MEMORY_FRAMES : Nat) : Int)) ∧
    (∀ (addrs : List Address) (store : Option BackingStore) (j : Nat) (v : Int),
      (faultVictims (check_tlb algFifo store initState addrs).2)[j + PHYSICAL_MEMORY_FRAMES]? =
        some v →
      (faultVictims (check_tlb algFifo store initState addrs).2)[j]? = some v) := by
  have h0 : initState.page_fault_counter = 0 := rfl
  refine ⟨select_victim_frame_fifo_spec, ?_, ?_⟩
  · intro addrs store j v hj
    have hv := fifo_fault_victims store addrs initState (by decide) (by decide) j v hj
    rw [h0, Nat.zero_add] at hv
    exact hv
  · intro addrs store j v hj
    have hv := fifo_fault_victims store addrs initState (by decide) (by decide) _ v hj
    rw [h0, Nat.zero_add] at hv
    have hlen : j + PHYSICAL_MEMORY_FRAMES <
        (faultVictims (check_tlb algFifo store initState addrs).2).length :=
      (List.getElem?_eq_some.mp hj).1
    have hjlen : j < (faultVictims (check_tlb algFifo store initState addrs).2).length := by
      simp only [PHYSICAL_MEMORY_FRAMES] at hlen
      omega
    rw [List.getElem?_eq_getElem hjlen]
    have hw := fifo_fault_victims store addrs initState (by decide) (by decide) j
      ((faultVictims (check_tlb algFifo store initState addrs).2)[j])
      (List.getElem?_eq_getElem hjlen)
    rw [h0, Nat.zero_add] at hw
    rw [hw, hv]
    congr 2
    simp only [PHYSICAL_MEMORY_FRAMES]
    omega

set_option maxRecDepth 100000 in
/-- Witness for C4: the cursor wraps at 128, and the single fault of a
concrete one-address run is assigned victim frame `0 mod 128`. -/
theorem c4_fifo_eviction_order_witness :
    select_victim_frame_fifo 128 =
      (128 % PHYSICAL_MEMORY_FRAMES, 128 % PHYSICAL_MEMORY_FRAMES + 1) ∧
    (0 : Int) = ((0 % PHYSICAL_MEMORY_FRAMES : Nat) : Int) :=
  ⟨c4_fifo_eviction_order.1 128 (by decide),
   c4_fifo_eviction_order.2.1 [split_address 256] none 0 0 (by decide)⟩

/-! ### LRU victim selection (C5) -/

lemma find_frame_number : ∀ (l : List Frame) (n : Int) (f : Frame),
    find_frame l n = some f → f.frame_number = n := by
  intro l
  induction l with
  | nil => intro n f h; cases h
  | cons g rest ih =>
    intro n f h
    simp only [find_frame] at h
    by_cases hg : g.frame_number = n
    · rw [if_pos hg] at h; injection h with h; rw [← h]; exact hg
    · rw [if_neg hg] at h; exact ih n f h

lemma lru_scan_spec :
    ∀ (l : List Frame) (cur : Frame),
      (lru_scan l cur cur.last_used = cur ∧
        ∀ (j : Nat) (fj : Frame), l[j]? = some fj → cur.last_used ≤ fj.last_used) ∨
      (∃ (i : Nat) (r : Frame), l[i]? = some r ∧ lru_scan l cur cur.last_used = r ∧
        r.last_used < cur.last_used ∧
        (∀ (j : Nat) (fj : Frame), l[j]? = some fj → r.last_used ≤ fj.last_used) ∧
        (∀ (j : Nat) (fj : Frame), j < i → l[j]? = some fj →
          r.last_used < fj.last_used)) := by
  intro l
  induction l with
  | nil =>
    intro cur
    left
    refine ⟨rfl, ?_⟩
    intro j fj hj
    simp at hj
  | cons f rest ih =>
    intro cur
    by_cases hf : f.last_used < cur.last_used
    · have hstep : lru_scan (f :: rest) cur cur.last_used = lru_scan rest f f.last_used := by
        simp [lru_scan, hf]
      rcases ih f with ⟨he, hall⟩ | ⟨i, r, hget, he, hlt, hmin, hstrict⟩
      · right
        refine ⟨0, f, List.getElem?_cons_zero, by rw [hstep, he], hf, ?_, ?_⟩
        · intro j fj hj
          cases j with
          | zero =>
            rw [List.getElem?_cons_zero] at hj
            injection hj with hj
            rw [← hj]
          | succ j' =>
            rw [List.getElem?_cons_succ] at hj
            exact hall j' fj hj
        · intro j fj hjlt hj
          exact absurd hjlt (Nat.not_lt_zero j)
      · right
        refine ⟨i + 1, r, by rw [List.getElem?_cons_succ]; exact hget,
          by rw [hstep, he], lt_trans hlt hf, ?_, ?_⟩
        · intro j fj hj
          cases j with
          | zero =>
            rw [List.getElem?_cons_zero] at hj
            injection hj with hj
            rw [← hj]
            exact le_of_lt hlt
          | succ j' =>
            rw [List.getElem?_cons_succ] at hj
            exact hmin j' fj hj
        · intro j fj hjlt hj
          cases j with
          | zero =>
            rw [List.getElem?_cons_zero] at hj
            injection hj with hj
            rw [← hj]
            exact hlt
          | succ j' =>
            rw [List.getElem?_cons_succ] at hj
            exact hstrict j' fj (Nat.lt_of_succ_lt_succ hjlt) hj
    · have hstep : lru_scan (f :: rest) cur cur.last_used = lru_scan rest cur cur.last_used := by
        simp [lru_scan, hf]
      have hcf : cur.last_used ≤ f.last_used := Int.not_lt.mp hf
      rcases ih cur with ⟨he, hall⟩ | ⟨i, r, hget, he, hlt, hmin, hstrict⟩
      · left
        refine ⟨by rw [hstep, he], ?_⟩
        intro j fj hj
        cases j with
        | zero =>
          rw [List.getElem?_cons_zero] at hj
          injection hj with hj
          rw [← hj]
          exact hcf
        | succ j' =>
          rw [List.getElem?_cons_succ] at hj
          exact hall j' fj hj
      · right
        refine ⟨i + 1, r, by rw [List.getElem?_cons_succ]; exact hget,
          by rw [hstep, he], hlt, ?_, ?_⟩
        · intro j fj hj
          cases j with
          | zero =>
            rw [List.getElem?_cons_zero] at hj
            injection hj with hj
            rw [← hj]
            exact le_of_lt (lt_of_lt_of_le hlt hcf)
          | succ j' =>
            rw [List.getElem?_cons_succ] at hj
            exact hmin j' fj hj
        · intro j fj hjlt hj
          cases j with
          | zero =>
            rw [List.getElem?_cons_zero] at hj
            injection hj with hj
            rw [← hj]
            exact lt_of_lt_of_le hlt hcf
          | succ j' =>
            rw [List.getElem?_cons_succ] at hj
            exact hstrict j' fj (Nat.lt_of_succ_lt_succ hjlt) hj

lemma select_victim_frame_lru_spec (f : Frame) (rest : List Frame)
    (hmax : ∀ g ∈ f :: rest, g.last_used < INT_MAX) :
    ∃ (i : Nat) (fm : Frame), (f :: rest)[i]? = some fm ∧
      select_victim_frame_lru (f :: rest) = fm.frame_number ∧
      (∀ (j : Nat) (fj : Frame), (f :: rest)[j]? = some fj →
        fm.last_used ≤ fj.last_used) ∧
      (∀ (j : Nat) (fj : Frame), j < i → (f :: rest)[j]? = some fj →
        fm.last_used < fj.last_used) := by
  have hsel : select_victim_frame_lru (f :: rest) =
      (lru_scan rest f f.last_used).frame_number := by
    have hfm : f.last_used < INT_MAX := hmax f (List.mem_cons_self f rest)
    simp [select_victim_frame_lru, lru_scan, hfm]
  rcases lru_scan_spec rest f with ⟨he, hall⟩ | ⟨i, r, hget, he, hlt, hmin, hstrict⟩
  · refine ⟨0, f, List.getElem?_cons_zero, by rw [hsel, he], ?_, ?_⟩
    · intro j fj hj
      cases j with
      | zero =>
        rw [List.getElem?_cons_zero] at hj
        injection hj with hj
        rw [← hj]
      | succ j' =>
        rw [List.getElem?_cons_succ] at hj
        exact hall j' fj hj
    · intro j fj hjlt hj
      exact absurd hjlt (Nat.not_lt_zero j)
  · refine ⟨i + 1, r, by rw [List.getElem?_cons_succ]; exact hget,
      by rw [hsel, he], ?_, ?_⟩
    · intro j fj hj
      cases j with
      | zero =>
        rw [List.getElem?_cons_zero] at hj
        injection hj with hj
        rw [← hj]
        exact le_of_lt hlt
      | succ j' =>
        rw [List.getElem?_cons_succ] at hj
        exact hmin j' fj hj
    · intro j fj hjlt hj
      cases j with
      | zero =>
        rw [List.getElem?_cons_zero] at hj
        injection hj with hj
        rw [← hj]
        exact hlt
      | succ j' =>
        rw [List.getElem?_cons_succ] at hj
        exact hstrict j' fj (Nat.lt_of_succ_lt_succ hjlt) hj

lemma lru_spares_more_recent (f : Frame) (rest : List Frame)
    (hnum : framesNumbered (f :: rest))
    (hmax : ∀ g ∈ f :: rest, g.last_used < INT_MAX)
    (ia ib : Nat) (fa fb : Frame)
    (ha : (f :: rest)[ia]? = some fa) (hb : (f :: rest)[ib]? = some fb)
    (hba : fb.last_used < fa.last_used) :
    select_victim_frame_lru (f :: rest) ≠ fa.frame_number := by
  obtain ⟨i, fm, hget, hsel, hmin, hstrict⟩ := select_victim_frame_lru_spec f rest hmax
  intro hcontra
  rw [hsel] at hcontra
  have h1 : fm.frame_number = (i : Int) := hnum i fm hget
  have h2 : fa.frame_number = (ia : Int) := hnum ia fa ha
  have hii : i = ia := by
    have : (i : Int) = (ia : Int) := by rw [← h1, ← h2, hcontra]
    exact_mod_cast this
  subst hii
  rw [ha] at hget
  injection hget with hget
  have hfb := hmin ib fb hb
  rw [← hget] at hfb
  omega

lemma find_frame_set_frame (l : List Frame) (n m : Int) (g : Frame → Frame)
    (hg : ∀ f, (g f).frame_number = f.frame_number) :
    find_frame (set_frame l n g) m =
      (find_frame l m).map (fun f => if f.frame_number = n then g f else f) := by
  induction l with
  | nil => rfl
  | cons f rest ih =>
    simp only [set_frame]
    by_cases hfn : f.frame_number = n
    · rw [if_pos hfn]
      by_cases hfm : f.frame_number = m
      · rw [show find_frame (g f :: rest) m = some (g f) from by
          simp [find_frame, hg f, hfm]]
        simp only [find_frame, if_pos hfm, Option.map_some']
        rw [if_pos hfn]
      · rw [show find_frame (g f :: rest) m = find_frame rest m from by
          simp [find_frame, hg f, hfm]]
        simp only [find_frame, if_neg hfm]
        cases hfind : find_frame rest m with
        | none => simp
        | some f' =>
          have hf' := find_frame_number rest m f' hfind
          have hne : ¬ f'.frame_number = n := by
            rw [hf']
            intro hmn
            exact hfm (hfn.trans hmn.symm)
          simp [hne]
    · rw [if_neg hfn]
      simp only [find_frame]
      by_cases hfm : f.frame_number = m
      · rw [if_pos hfm, if_pos hfm]
        simp [hfn]
      · rw [if_neg hfm, if_neg hfm]
        exact ih

lemma touch_frame_stamp (s : VMState) (n : Int)
    (h : (find_frame s.frames n).isSome = true) :
    frame_stamp (touch_frame s n).frames n = some s.current_time ∧
    (touch_frame s n).current_time = s.current_time + 1 := by
  obtain ⟨fr, hfr⟩ := Option.isSome_iff_exists.mp h
  constructor
  · simp only [touch_frame, hfr, frame_stamp]
    rw [find_frame_set_frame s.frames n n
      (fun f => { f with last_used := s.current_time }) (fun f => rfl), hfr]
    have hn := find_frame_number s.frames n fr hfr
    simp [hn]
  · simp [touch_frame, hfr]

lemma load_page_into_frame_frames_time (store : Option BackingStore) (s : VMState)
    (v p m : Int) :
    (find_frame (load_page_into_frame store s v p).frames m).isSome =
      (find_frame s.frames m).isSome ∧
    ((load_page_into_frame store s v p).current_time = s.current_time ∨
     (load_page_into_frame store s v p).current_time = s.current_time + 1) := by
  cases store with
  | none => exact ⟨rfl, Or.inl rfl⟩
  | some bs =>
    cases hv : find_frame s.frames v with
    | none => simp [load_page_into_frame, hv]
    | some fv =>
      have hset := find_frame_set_frame s.frames v m
        (fun f =>
          { f with
            data := fread_page bs (p * (PAGE_SIZE : Int)).toNat f.data
            last_used := s.current_time })
        (fun f => rfl)
      constructor
      · simp only [load_page_into_frame, hv]
        rw [hset]
        cases hm : find_frame s.frames m <;> simp
      · right
        simp [load_page_into_frame, hv]

lemma handle_page_fault_lru (store : Option BackingStore) (s : VMState) (p m : Int) :
    (handle_page_fault store algLru s p).2 = some (select_victim_frame_lru s.frames) ∧
    (find_frame (handle_page_fault store algLru s p).1.frames m).isSome =
      (find_frame s.frames m).isSome ∧
    ((handle_page_fault store algLru s p).1.current_time = s.current_time ∨
     (handle_page_fault store algLru s p).1.current_time = s.current_time + 1) := by
  have hl := load_page_into_frame_frames_time store s (select_victim_frame_lru s.frames) p m
  exact ⟨rfl, hl.1, hl.2⟩

lemma check_tlb_step_lru_stamps (store : Option BackingStore) (s : VMState) (a : Address)
    (h : (find_frame s.frames (check_tlb_step algLru store s a).2.frame_number).isSome =
      true) :
    s.current_time < (check_tlb_step algLru store s a).1.current_time ∧
    frame_stamp (check_tlb_step algLru store s a).1.frames
        (check_tlb_step algLru store s a).2.frame_number =
      some ((check_tlb_step algLru store s a).1.current_time - 1) := by
  cases htl : tlb_lookup s.TLB a.page_number with
  | some pr =>
    obtain ⟨i, f⟩ := pr
    rw [check_tlb_step_hit algLru store s a i f htl] at h ⊢
    have hfr : (check_tlb_step algLru store s a).2.frame_number = f := by
      rw [check_tlb_step_hit algLru store s a i f htl, hit_branch_record]
    have ht := touch_frame_stamp { s with tlb_hit_counter := s.tlb_hit_counter + 1 } f
      (by rw [show ({ s with tlb_hit_counter := s.tlb_hit_counter + 1 } : VMState).frames =
          s.frames from rfl]
          rw [hit_branch_record] at h
          exact h)
    refine ⟨?_, ?_⟩
    · rw [show (hit_branch s a i f).1.current_time =
          (touch_frame { s with tlb_hit_counter := s.tlb_hit_counter + 1 } f).current_time
          from rfl, ht.2]
      dsimp only
      omega
    · rw [show (hit_branch s a i f).1 =
          touch_frame { s with tlb_hit_counter := s.tlb_hit_counter + 1 } f from rfl,
        hit_branch_record, ht.2, ht.1]
      dsimp only
      congr 1
      omega
  | none =>
    by_cases hpt : ptGet s.page_table a.page_number < 0
    · rw [check_tlb_step_fault algLru store s a htl hpt] at h ⊢
      have hh := handle_page_fault_lru store
        { s with page_fault_counter := s.page_fault_counter + 1 } a.page_number
        (miss_emit (handle_page_fault store algLru
          { s with page_fault_counter := s.page_fault_counter + 1 } a.page_number).1 a
          (handle_page_fault store algLru
            { s with page_fault_counter := s.page_fault_counter + 1 } a.page_number).2).2.frame_number
      rw [miss_emit_record] at h ⊢
      have hiso : (find_frame (handle_page_fault store algLru
          { s with page_fault_counter := s.page_fault_counter + 1 }
          a.page_number).1.frames
          (ptGet (handle_page_fault store algLru
            { s with page_fault_counter := s.page_fault_counter + 1 }
            a.page_number).1.page_table a.page_number)).isSome = true := by
        rw [(handle_page_fault_lru store
          { s with page_fault_counter := s.page_fault_counter + 1 } a.page_number
          (ptGet (handle_page_fault store algLru
            { s with page_fault_counter := s.page_fault_counter + 1 }
            a.page_number).1.page_table a.page_number)).2.1]
        exact h
      have ht := touch_frame_stamp
        { (handle_page_fault store algLru
            { s with page_fault_counter := s.page_fault_counter + 1 } a.page_number).1 with
          TLB := update_tlb (handle_page_fault store algLru
            { s with page_fault_counter := s.page_fault_counter + 1 } a.page_number).1.TLB
            a.page_number
            (ptGet (handle_page_fault store algLru
              { s with page_fault_counter := s.page_fault_counter + 1 }
              a.page_number).1.page_table a.page_number)
            (handle_page_fault store algLru
              { s with page_fault_counter := s.page_fault_counter + 1 }
              a.page_number).1.next_tlb_entry,
          next_tlb_entry := ((handle_page_fault store algLru
            { s with page_fault_counter := s.page_fault_counter + 1 }
            a.page_number).1.next_tlb_entry + 1) % TLB_SIZE }
        (ptGet (handle_page_fault store algLru
          { s with page_fault_counter := s.page_fault_counter + 1 }
          a.page_number).1.page_table a.page_number) hiso
      have htime := (handle_page_fault_lru store
        { s with page_fault_counter := s.page_fault_counter + 1 } a.page_number 0).2.2
      refine ⟨?_, ?_⟩
      · rw [show (miss_emit (handle_page_fault store algLru
            { s with page_fault_counter := s.page_fault_counter + 1 } a.page_number).1 a
            (handle_page_fault store algLru
              { s with page_fault_counter := s.page_fault_counter + 1 }
              a.page_number).2).1.current_time = _ from ht.2]
        rcases htime with he | he <;> rw [he] <;> dsimp only <;> omega
      · rw [show (miss_emit (handle_page_fault store algLru
            { s with page_fault_counter := s.page_fault_counter + 1 } a.page_number).1 a
            (handle_page_fault store algLru
              { s with page_fault_counter := s.page_fault_counter + 1 }
              a.page_number).2).1.current_time = _ from ht.2]
        rw [show frame_stamp (miss_emit (handle_page_fault store algLru
            { s with page_fault_counter := s.page_fault_counter + 1 } a.page_number).1 a
            (handle_page_fault store algLru
              { s with page_fault_counter := s.page_fault_counter + 1 }
              a.page_number).2).1.frames
            (ptGet (handle_page_fault store algLru
              { s with page_fault_counter := s.page_fault_counter + 1 }
              a.page_number).1.page_table a.page_number) = _ from ht.1]
        dsimp only
        congr 1
        omega
    · rw [check_tlb_step_page_hit algLru store s a htl hpt] at h ⊢
      rw [miss_emit_record] at h ⊢
      have ht := touch_frame_stamp
        { s with
          TLB := update_tlb s.TLB a.page_number (ptGet s.page_table a.page_number)
            s.next_tlb_entry,
          next_tlb_entry := (s.next_tlb_entry + 1) % TLB_SIZE }
        (ptGet s.page_table a.page_number) h
      refine ⟨?_, ?_⟩
      · rw [show (miss_emit s a none).1.current_time = _ from ht.2]
        dsimp only
        omega
      · rw [show frame_stamp (miss_emit s a none).1.frames
            (ptGet s.page_table a.page_number) = _ from ht.1,
          show (miss_emit s a none).1.current_time = _ from ht.2]
        dsimp only
        congr 1
        omega

/-- C5: under LRU replacement, (a) every successful resolution — TLB hit,
page hit, or fault — strictly advances the logical clock and leaves the
resolved frame stamped with the latest tick (final clock minus one), provided
the resolved frame number is present in the pool; (b) `select_victim_frame_
lru` returns the frame with the minimum stamp, ties broken by first position
in scan order (which is lowest frame number, as the pool is kept in
frame-number order); (c) consequently a frame touched more recently than some
other frame is never the selected victim, i.e. re-touching strictly postpones
eviction relative to all less-recently-touched frames. -/
theorem c5_lru_recency :
    (∀ (store : Option BackingStore) (s : VMState) (a : Address),
      (find_frame s.frames (check_tlb_step algLru store s a).2.frame_number).isSome = true →
      s.current_time < (check_tlb_step algLru store s a).1.current_time ∧
      frame_stamp (check_tlb_step algLru store s a).1.frames
          (check_tlb_step algLru store s a).2.frame_number =
        some ((check_tlb_step algLru store s a).1.current_time - 1)) ∧
    (∀ (f : Frame) (rest : List Frame),
      (∀ g ∈ f :: rest, g.last_used < INT_MAX) →
      ∃ (i : Nat) (fm : Frame), (f :: rest)[i]? = some fm ∧
        select_victim_frame_lru (f :: rest) = fm.frame_number ∧
        (∀ (j : Nat) (fj : Frame), (f :: rest)[j]? = some fj →
          fm.last_used ≤ fj.last_used) ∧
        (∀ (j : Nat) (fj : Frame), j < i → (f :: rest)[j]? = some fj →
          fm.last_used < fj.last_used)) ∧
    (∀ (f : Frame) (rest : List Frame), framesNumbered (f :: rest) →
      (∀ g ∈ f :: rest, g.last_used < INT_MAX) →
      ∀ (ia ib : Nat) (fa fb : Frame),
        (f :: rest)[ia]? = some fa → (f :: rest)[ib]? = some fb →
        fb.last_used < fa.last_used →
        select_victim_frame_lru (f :: rest) ≠ fa.frame_number) :=
  ⟨check_tlb_step_lru_stamps, select_victim_frame_lru_spec, lru_spares_more_recent⟩

lemma lruDemo_numbered : framesNumbered (lruF0 :: [lruF1]) := by
  intro i f h
  cases i with
  | zero =>
    rw [List.getElem?_cons_zero] at h
    injection h with h
    rw [← h]
    rfl
  | succ i' =>
    cases i' with
    | zero =>
      rw [List.getElem?_cons_succ, List.getElem?_cons_zero] at h
      injection h with h
      rw [← h]
      rfl
    | succ i'' =>
      rw [List.getElem?_cons_succ, List.getElem?_cons_succ] at h
      simp at h

set_option maxRecDepth 100000 in
/-- Witness for C5: (a) instantiated on the first translation of address 0
under LRU with a readable store; (c) instantiated on a two-frame pool where
frame 0 was touched at tick 5 and frame 1 at tick 3 — the more recently
touched frame 0 is not selected. -/
theorem c5_lru_recency_witness :
    (initState.current_time <
      (check_tlb_step algLru (some demoStore) initState (split_address 0)).1.current_time ∧
     frame_stamp (check_tlb_step algLru (some demoStore) initState
          (split_address 0)).1.frames
        (check_tlb_step algLru (some demoStore) initState (split_address 0)).2.frame_number =
      some ((check_tlb_step algLru (some demoStore) initState
          (split_address 0)).1.current_time - 1)) ∧
    select_victim_frame_lru (lruF0 :: [lruF1]) ≠ lruF0.frame_number :=
  ⟨c5_lru_recency.1 (some demoStore) initState (split_address 0) (by decide),
   c5_lru_recency.2.2 lruF0 [lruF1] lruDemo_numbered (by decide) 0 1 lruF0 lruF1
     rfl rfl (by decide)⟩

end VM
